import Mathlib

/-!
# BitSlow coin ledger — verification of the core spec claims

A shallow embedding of the BitSlow marketplace server core (the
`/api/coins/generate`, `/api/coins/buy` and `/api/coins/:id/history`
handlers together with the two in-memory response caches), translated
from the repository's server source.  SQLite rows become Lean
structures, the database becomes explicit lists of rows, the JavaScript
`Math.random()` stream becomes an explicit oracle `rand : Nat → Nat`,
ISO date strings become naturals ordered the same way, and each HTTP
handler becomes a pure function from the server state (plus request
data) to a result and a new server state.  Transaction semantics
(`BEGIN` / `COMMIT` / `ROLLBACK`) are reflected by returning the input
state unchanged on every failure path.
-/

namespace BitSlow

/-- A `(bit1, bit2, bit3)` combination. -/
abbrev Triple := Nat × Nat × Nat

/-- A row of the `clients` table (only the columns the core reads). -/
structure Client where
  id : Nat
  name : String
deriving DecidableEq

/-- A row of the `coins` table:
`coins(coin_id PK, bit1, bit2, bit3, value, client_id FK nullable)`. -/
structure Coin where
  coin_id : Nat
  bit1 : Nat
  bit2 : Nat
  bit3 : Nat
  value : Rat
  client_id : Option Nat
deriving DecidableEq

/-- A row of the `transactions` table:
`transactions(id PK, coin_id FK, buyer_id FK, seller_id FK nullable,
amount, transaction_date)`.  Dates are modelled as naturals; SQLite
orders the stored ISO strings chronologically, which the natural order
mirrors. -/
structure Transaction where
  id : Nat
  coin_id : Nat
  buyer_id : Nat
  seller_id : Option Nat
  amount : Rat
  transaction_date : Nat
deriving DecidableEq

/-- The SQLite database: the three tables the core touches, plus the
rowid counters that `INSERT ... lastInsertRowid` draws from. -/
structure Store where
  clients : List Client
  coins : List Coin
  transactions : List Transaction
  nextCoinId : Nat
  nextTxId : Nat
deriving DecidableEq

/-- Payload of one entry of the server-side coin cache (the `CoinCache`
interface: `{ coins, total, page, pageSize }`). -/
structure CoinPage where
  coins : List Coin
  total : Nat
  page : Nat
  pageSize : Nat
deriving DecidableEq

/-- Payload of one entry of the server-side transaction cache (the
`TransactionCache` interface: `{ transactions, total, page, pageSize }`). -/
structure TransactionPage where
  transactions : List Transaction
  total : Nat
  page : Nat
  pageSize : Nat
deriving DecidableEq

/-- One cache entry: `{ data, timestamp }`. -/
structure CacheEntry (α : Type) where
  data : α
  timestamp : Nat
deriving DecidableEq

/-- The whole mutable server state: the database plus the two module-level
`Map`s `transactionCache` and `coinCache` (modelled as association
lists keyed by the cache-key strings). -/
structure ServerState where
  store : Store
  transactionCache : List (String × CacheEntry TransactionPage)
  coinCache : List (String × CacheEntry CoinPage)
deriving DecidableEq

/-- The triple stored on a coin row, as read by
`SELECT bit1, bit2, bit3 FROM coins`. -/
def coinTriple (c : Coin) : Triple := (c.bit1, c.bit2, c.bit3)

/-- The set of triples of all existing coins (sold and unsold alike). -/
def coinTriples (s : ServerState) : List Triple := s.store.coins.map coinTriple

/-- One rejection-sampling draw of the generation loop: each component is
`Math.floor(Math.random() * 10) + 1`, i.e. a number in `[1, 10]`.  The
random stream is an explicit oracle `rand`; attempt `i` consumes the
oracle values at positions `3*i`, `3*i+1`, `3*i+2`. -/
def drawTriple (rand : Nat → Nat) (i : Nat) : Triple :=
  (rand (3 * i) % 10 + 1, rand (3 * i + 1) % 10 + 1, rand (3 * i + 2) % 10 + 1)

/-- The bounded `do ... while` loop of `generateUniqueBits`: test up to
`fuel` draws against the existing-combination set; return the first draw
not already present, or `none` once the attempt budget is spent (the
source throws "Could not find unique bit combination after many
attempts"). -/
def findUnusedBits (existing : List Triple) (rand : Nat → Nat) :
    Nat → Nat → Option Triple
  | 0, _ => none
  | fuel + 1, i =>
    let t := drawTriple rand i
    if t ∈ existing then findUnusedBits existing rand fuel (i + 1) else some t

/-- `MAX_ATTEMPTS = 10000` — the loop budget of `generateUniqueBits`. -/
def MAX_ATTEMPTS : Nat := 10000

/-- `generateUniqueBits` from the `/api/coins/generate` handler: read the
triples of all existing coins and rejection-sample an unused one within
the `MAX_ATTEMPTS` budget. -/
def generateUniqueBits (existing : List Triple) (rand : Nat → Nat) : Option Triple :=
  findUnusedBits existing rand MAX_ATTEMPTS 0

/-- Outcome of the `POST /api/coins/generate` handler (after a successful
auth check): 400 "Valid monetary value is required", 500 after the
exhaustion throw and `ROLLBACK`, or 200 with the new coin's data. -/
inductive GenerateResult where
  | invalidValue
  | exhausted
  | generated (coin_id : Nat) (bit1 : Nat) (bit2 : Nat) (bit3 : Nat) (value : Rat)
deriving DecidableEq

/-- The `POST /api/coins/generate` handler body for an authenticated
requester `userId`: validate `value > 0`, draw an unused triple inside
the transaction, insert the coin owned by the requester, append the mint
transaction (`seller_id = NULL`), commit, and clear both caches.  On any
failure the transaction is rolled back, so the state is returned
unchanged. -/
def generate (s : ServerState) (userId : Nat) (value : Rat) (rand : Nat → Nat)
    (now : Nat) : GenerateResult × ServerState :=
  if value ≤ 0 then (.invalidValue, s)
  else
    match generateUniqueBits (s.store.coins.map coinTriple) rand with
    | none => (.exhausted, s)
    | some t =>
      let coinId := s.store.nextCoinId
      let coin : Coin :=
        { coin_id := coinId, bit1 := t.1, bit2 := t.2.1, bit3 := t.2.2,
          value := value, client_id := some userId }
      let tx : Transaction :=
        { id := s.store.nextTxId, coin_id := coinId, buyer_id := userId,
          seller_id := none, amount := value, transaction_date := now }
      (.generated coinId t.1 t.2.1 t.2.2 value,
       { store :=
           { s.store with
             coins := s.store.coins ++ [coin],
             transactions := s.store.transactions ++ [tx],
             nextCoinId := coinId + 1,
             nextTxId := s.store.nextTxId + 1 },
         transactionCache := [],
         coinCache := [] })

/-- Outcome of the `POST /api/coins/buy` handler (after a successful auth
check): 400 "Coin ID is required", 404 "Coin not found", 400 "Coin
already has an owner", or 200 "Coin purchased successfully". -/
inductive BuyResult where
  | missingCoinId
  | notFound
  | alreadyOwned
  | purchased (coin_id : Nat)
deriving DecidableEq

/-- `UPDATE coins SET client_id = ? WHERE coin_id = ?` applied to one row. -/
def updateOwner (coinId : Nat) (buyerId : Nat) (c : Coin) : Coin :=
  if c.coin_id = coinId then { c with client_id := some buyerId } else c

/-- The `POST /api/coins/buy` handler body for an authenticated buyer:
reject a falsy `coin_id`, look the coin up inside the transaction, fail
404 when absent and 400 when already owned (rolling back, i.e. leaving
the state untouched), otherwise set the owner, append a transaction with
`seller_id = NULL` and `amount = coin.value`, commit, and clear both
caches. -/
def buy (s : ServerState) (buyerId : Nat) (coinId : Nat) (now : Nat) :
    BuyResult × ServerState :=
  if coinId = 0 then (.missingCoinId, s)
  else
    match s.store.coins.find? (fun c => c.coin_id == coinId) with
    | none => (.notFound, s)
    | some coin =>
      if coin.client_id ≠ none then (.alreadyOwned, s)
      else
        let tx : Transaction :=
          { id := s.store.nextTxId, coin_id := coinId, buyer_id := buyerId,
            seller_id := none, amount := coin.value, transaction_date := now }
        (.purchased coinId,
         { store :=
             { s.store with
               coins := s.store.coins.map (updateOwner coinId buyerId),
               transactions := s.store.transactions ++ [tx],
               nextTxId := s.store.nextTxId + 1 },
           transactionCache := [],
           coinCache := [] })

/-- One row of the history query of `GET /api/coins/:id/history`:
`SELECT t.transaction_date, t.amount, seller.id as seller_id,
seller.name as seller_name, buyer.id as buyer_id, buyer.name as
buyer_name FROM transactions t LEFT JOIN clients seller ON t.seller_id =
seller.id JOIN clients buyer ON t.buyer_id = buyer.id WHERE t.coin_id =
? ORDER BY t.transaction_date ASC`. -/
structure HistoryRow where
  transaction_date : Nat
  amount : Rat
  seller_id : Option Nat
  seller_name : Option String
  buyer_id : Nat
  buyer_name : String
deriving DecidableEq

/-- `SELECT name FROM clients WHERE id = ?` followed by `?.name`. -/
def clientName (s : ServerState) (cid : Nat) : Option String :=
  (s.store.clients.find? (fun cl => cl.id == cid)).map (fun cl => cl.name)

/-- The unsorted rows of the history query: all transactions of the coin,
inner-joined with the buyer's client row (a transaction whose buyer has
no client row is dropped by the `JOIN`) and left-joined with the
seller's client row (`seller_id`/`seller_name` are null when
`t.seller_id` is null or names no client). -/
def historyRows (s : ServerState) (coinId : Nat) : List HistoryRow :=
  (s.store.transactions.filter (fun t => t.coin_id == coinId)).filterMap fun t =>
    match s.store.clients.find? (fun cl => cl.id == t.buyer_id) with
    | none => none
    | some buyer =>
      let sellerCl : Option Client :=
        t.seller_id.bind fun sid => s.store.clients.find? (fun cl => cl.id == sid)
      some { transaction_date := t.transaction_date,
             amount := t.amount,
             seller_id := sellerCl.map (fun cl => cl.id),
             seller_name := sellerCl.map (fun cl => cl.name),
             buyer_id := buyer.id,
             buyer_name := buyer.name }

/-- Insert one row into a date-sorted row list, keeping it sorted. -/
def insertByDate (r : HistoryRow) : List HistoryRow → List HistoryRow
  | [] => [r]
  | x :: xs =>
    if x.transaction_date ≤ r.transaction_date then x :: insertByDate r xs
    else r :: x :: xs

/-- `ORDER BY t.transaction_date ASC` as an insertion sort. -/
def sortByDate : List HistoryRow → List HistoryRow
  | [] => []
  | r :: rs => insertByDate r (sortByDate rs)

/-- The `type` field of an ownership record: the string literals
`"generated"`, `"transfer"`, `"current"`. -/
inductive EventType where
  | generated
  | transfer
  | current
deriving DecidableEq

/-- One entry of the `ownershipHistory` array returned by the history
endpoint.  `date := none` encodes the literal string `"Current"` used on
the synthetic current-status record; `date := some d` encodes a stored
transaction date. -/
structure OwnershipRecord where
  date : Option Nat
  owner_id : Option Nat
  owner_name : Option String
  type : EventType
  amount : Option Rat
  previous_owner_id : Option Nat
  previous_owner_name : Option String
deriving DecidableEq

/-- The record pushed for the first transaction of a coin: "First
transaction is generated (no real seller)". -/
def generatedEvent (r : HistoryRow) : OwnershipRecord :=
  { date := some r.transaction_date,
    owner_id := some r.buyer_id,
    owner_name := some r.buyer_name,
    type := .generated,
    amount := some r.amount,
    previous_owner_id := none,
    previous_owner_name := some "Original Issuer" }

/-- The record pushed for every transaction after the first. -/
def transferEvent (r : HistoryRow) : OwnershipRecord :=
  { date := some r.transaction_date,
    owner_id := some r.buyer_id,
    owner_name := some r.buyer_name,
    type := .transfer,
    amount := some r.amount,
    previous_owner_id := r.seller_id,
    previous_owner_name := r.seller_name }

/-- The `for (const tx of transactions)` loop building `ownershipHistory`:
the first row becomes a `generated` record, every later row a `transfer`
record. -/
def buildOwnershipHistory : List HistoryRow → List OwnershipRecord
  | [] => []
  | first :: rest => generatedEvent first :: rest.map transferEvent

/-- The synthetic `currentOwner` record appended after the loop.  The
JavaScript truthiness tests (`coin.client_id ? ... : null`,
`lastOwnerId ? ... : null`) are modelled by the explicit `= 0` checks;
`previous_owner_id`/`previous_owner_name` are overwritten from the last
history entry whenever the loop produced one; a null `client_id` turns
`owner_name` into `"Available for Purchase"`. -/
def currentEvent (s : ServerState) (coin : Coin) (rows : List HistoryRow)
    (events : List OwnershipRecord) : OwnershipRecord :=
  let lastOwnerId : Option Nat := rows.getLast?.map (fun r => r.buyer_id)
  let ownerName0 : Option String :=
    match coin.client_id with
    | some cid => if cid = 0 then none else clientName s cid
    | none => none
  let prevName0 : Option String :=
    match lastOwnerId with
    | some bid => if bid = 0 then none else clientName s bid
    | none => none
  let prev : Option Nat × Option String :=
    match events.getLast? with
    | some ev => (ev.owner_id, ev.owner_name)
    | none => (lastOwnerId, prevName0)
  { date := none,
    owner_id := coin.client_id,
    owner_name :=
      if coin.client_id = none then some "Available for Purchase" else ownerName0,
    type := .current,
    amount := none,
    previous_owner_id := prev.1,
    previous_owner_name := prev.2 }

/-- The `GET /api/coins/:id/history` handler body: 404 (`none`) when the
coin does not exist, otherwise the ownership timeline — the per-
transaction records in date-ascending order followed by the synthetic
current-status record. -/
def projectHistory (s : ServerState) (coinId : Nat) : Option (List OwnershipRecord) :=
  match s.store.coins.find? (fun c => c.coin_id == coinId) with
  | none => none
  | some coin =>
    let rows := sortByDate (historyRows s coinId)
    let events := buildOwnershipHistory rows
    some (events ++ [currentEvent s coin rows events])

/-- How the `CoinHistoryModal` component renders a record's previous
owner: `record.previous_owner_name || "Original Issuer"` — the fallback
fires on null and on the empty string (both falsy). -/
def displayPreviousOwner (r : OwnershipRecord) : String :=
  match r.previous_owner_name with
  | some nm => if nm = "" then "Original Issuer" else nm
  | none => "Original Issuer"

/-- The coin-triple uniqueness invariant: the `(bit1, bit2, bit3)` triple
is unique across all coin rows. -/
def TriplesUnique (coins : List Coin) : Prop :=
  (coins.map coinTriple).Nodup

instance (coins : List Coin) : Decidable (TriplesUnique coins) :=
  List.nodupDecidable (coins.map coinTriple)

/-- A triple lies in the 10 × 10 × 10 combination space. -/
def tripleInRange (t : Triple) : Prop :=
  1 ≤ t.1 ∧ t.1 ≤ 10 ∧ 1 ≤ t.2.1 ∧ t.2.1 ≤ 10 ∧ 1 ≤ t.2.2 ∧ t.2.2 ≤ 10

instance (t : Triple) : Decidable (tripleInRange t) := by
  unfold tripleInRange; infer_instance

/-! ## Helper lemmas about the rejection-sampling draw -/

/-- Every draw of the sampling loop lies in the 10 × 10 × 10 space. -/
lemma drawTriple_inRange (rand : Nat → Nat) (i : Nat) :
    tripleInRange (drawTriple rand i) := by
  unfold tripleInRange drawTriple
  dsimp only
  omega

/-- A successful bounded draw returns a triple that is not in the existing
set and lies in the combination space. -/
lemma findUnusedBits_some (existing : List Triple) (rand : Nat → Nat) :
    ∀ fuel i t, findUnusedBits existing rand fuel i = some t →
      t ∉ existing ∧ tripleInRange t := by
  intro fuel
  induction fuel with
  | zero => intro i t h; simp [findUnusedBits] at h
  | succ n ih =>
    intro i t h
    unfold findUnusedBits at h
    by_cases hmem : drawTriple rand i ∈ existing
    · rw [if_pos hmem] at h
      exact ih _ _ h
    · rw [if_neg hmem] at h
      injection h with h
      subst h
      exact ⟨hmem, drawTriple_inRange rand i⟩

/-- When every triple of the combination space is already taken, the
bounded draw fails no matter how much fuel it has. -/
lemma findUnusedBits_none (existing : List Triple) (rand : Nat → Nat)
    (hfull : ∀ t, tripleInRange t → t ∈ existing) :
    ∀ fuel i, findUnusedBits existing rand fuel i = none := by
  intro fuel
  induction fuel with
  | zero => intro i; rfl
  | succ n ih =>
    intro i
    unfold findUnusedBits
    rw [if_pos (hfull _ (drawTriple_inRange rand i))]
    exact ih (i + 1)

/-- Ownership updates do not touch a coin's triple. -/
lemma coinTriple_updateOwner (coinId buyerId : Nat) (c : Coin) :
    coinTriple (updateOwner coinId buyerId c) = coinTriple c := by
  unfold updateOwner
  split <;> rfl

/-! ## C1 — uniqueness of the coin triple is an invariant -/

/-- C1.  The `(bit1,bit2,bit3)` triple stays unique across all coin rows:
`generateUniqueBits` only returns a triple absent from the set of all
existing coins' triples, so a successful `generate` appends a coin whose
triple collides with no existing row, and `buy` never changes any
triple; hence both operations preserve the uniqueness invariant. -/
theorem triple_uniqueness_invariant :
    (∀ existing rand t, generateUniqueBits existing rand = some t → t ∉ existing) ∧
    (∀ s userId value rand now, TriplesUnique s.store.coins →
      TriplesUnique ((generate s userId value rand now).2).store.coins) ∧
    (∀ s buyerId coinId now, TriplesUnique s.store.coins →
      TriplesUnique ((buy s buyerId coinId now).2).store.coins) := by
  refine ⟨?_, ?_, ?_⟩
  · intro existing rand t h
    exact (findUnusedBits_some existing rand MAX_ATTEMPTS 0 t h).1
  · intro s userId value rand now hHe
    unfold generate
    split
    · exact hHe
    · cases hdraw : generateUniqueBits (s.store.coins.map coinTriple) rand with
      | none => simp only [hdraw]; exact hHe
      | some t =>
        simp only [hdraw]
        unfold TriplesUnique at *
        have hne : t ∉ s.store.coins.map coinTriple :=
          (findUnusedBits_some _ rand MAX_ATTEMPTS 0 t hdraw).1
        simp only [List.map_append, List.map_cons, List.map_nil]
        rw [List.nodup_append]
        refine ⟨hHe, List.nodup_singleton _, ?_⟩
        intro a ha hb
        rw [List.mem_singleton] at hb
        subst hb
        exact hne ha
  · intro s buyerId coinId now hHe
    unfold buy
    split
    · exact hHe
    · cases hfind : s.store.coins.find? (fun c => c.coin_id == coinId) with
      | none => simp only [hfind]; exact hHe
      | some coin =>
        simp only [hfind]
        split
        · exact hHe
        · unfold TriplesUnique at *
          have hmap : (s.store.coins.map (updateOwner coinId buyerId)).map coinTriple
              = s.store.coins.map coinTriple := by
            rw [List.map_map]
            exact List.map_congr_left fun c _ => coinTriple_updateOwner coinId buyerId c
          simpa only [hmap] using hHe

/-- Witness for C1: concrete runs of the three conjuncts.  With a one-coin
store holding triple `(1,1,1)` and a constant-zero oracle the draw
returns `(1,2,3)`, and both `generate`
and `buy` preserve uniqueness on a concrete two-coin store. -/
theorem triple_uniqueness_invariant_witness :
    ((1, 2, 3) : Triple) ∉ [((1, 1, 1) : Triple)] ∧
    TriplesUnique
      ((generate
        { store := { clients := [⟨1, "Alice"⟩],
                     coins := [⟨1, 1, 1, 1, 5, some 1⟩, ⟨2, 2, 2, 2, 7, none⟩],
                     transactions := [], nextCoinId := 3, nextTxId := 1 },
          transactionCache := [], coinCache := [] }
        1 5 (fun n => n) 10).2).store.coins ∧
    TriplesUnique
      ((buy
        { store := { clients := [⟨1, "Alice"⟩],
                     coins := [⟨1, 1, 1, 1, 5, some 1⟩, ⟨2, 2, 2, 2, 7, none⟩],
                     transactions := [], nextCoinId := 3, nextTxId := 1 },
          transactionCache := [], coinCache := [] }
        1 2 10).2).store.coins := by
  refine ⟨?_, ?_, ?_⟩
  · have h := triple_uniqueness_invariant.1 [((1, 1, 1) : Triple)] (fun n => n)
      (1, 2, 3) (by decide)
    exact h
  · exact triple_uniqueness_invariant.2.1 _ 1 5 (fun n => n) 10 (by decide)
  · exact triple_uniqueness_invariant.2.2 _ 1 2 10 (by decide)

/-! ## Equation lemmas for the generate handler -/

/-- A non-positive value is rejected before any state change. -/
lemma generate_invalid (s : ServerState) (userId : Nat) (value : Rat)
    (rand : Nat → Nat) (now : Nat) (hv : value ≤ 0) :
    generate s userId value rand now = (.invalidValue, s) := by
  unfold generate
  rw [if_pos hv]

/-- A failed draw makes generate roll back and report exhaustion. -/
lemma generate_none (s : ServerState) (userId : Nat) (value : Rat)
    (rand : Nat → Nat) (now : Nat) (hv : ¬ value ≤ 0)
    (hdraw : generateUniqueBits (s.store.coins.map coinTriple) rand = none) :
    generate s userId value rand now = (.exhausted, s) := by
  unfold generate
  rw [if_neg hv, hdraw]

/-- A successful draw makes generate insert the coin and the mint
transaction and clear both caches. -/
lemma generate_some (s : ServerState) (userId : Nat) (value : Rat)
    (rand : Nat → Nat) (now : Nat) (t : Triple) (hv : ¬ value ≤ 0)
    (hdraw : generateUniqueBits (s.store.coins.map coinTriple) rand = some t) :
    generate s userId value rand now =
      (.generated s.store.nextCoinId t.1 t.2.1 t.2.2 value,
       { store :=
           { s.store with
             coins := s.store.coins ++
               [{ coin_id := s.store.nextCoinId, bit1 := t.1, bit2 := t.2.1,
                  bit3 := t.2.2, value := value, client_id := some userId }],
             transactions := s.store.transactions ++
               [{ id := s.store.nextTxId, coin_id := s.store.nextCoinId,
                  buyer_id := userId, seller_id := none, amount := value,
                  transaction_date := now }],
             nextCoinId := s.store.nextCoinId + 1,
             nextTxId := s.store.nextTxId + 1 },
         transactionCache := [],
         coinCache := [] }) := by
  unfold generate
  rw [if_neg hv, hdraw]

/-! ## C2 — postcondition of a successful generate -/

/-- C2.  When `generate` succeeds for an authenticated requester and a
positive value, the store gains exactly one new coin row (appended, with
`owner = requester`, `value = value` and each bit in `[1, 10]`) and
exactly one new transaction row (`buyer = requester`,
`seller_id = NULL`, `amount = value`), and both caches are cleared. -/
theorem generate_success_postcondition
    (s : ServerState) (userId : Nat) (value : Rat) (rand : Nat → Nat) (now : Nat)
    (cid b1 b2 b3 : Nat) (v : Rat)
    (hv : 0 < value)
    (h : (generate s userId value rand now).1 = .generated cid b1 b2 b3 v) :
    v = value ∧ cid = s.store.nextCoinId ∧ tripleInRange (b1, b2, b3) ∧
    (generate s userId value rand now).2 =
      { store :=
          { s.store with
            coins := s.store.coins ++
              [{ coin_id := cid, bit1 := b1, bit2 := b2, bit3 := b3,
                 value := value, client_id := some userId }],
            transactions := s.store.transactions ++
              [{ id := s.store.nextTxId, coin_id := cid, buyer_id := userId,
                 seller_id := none, amount := value, transaction_date := now }],
            nextCoinId := cid + 1,
            nextTxId := s.store.nextTxId + 1 },
        transactionCache := [],
        coinCache := [] } := by
  have hv' : ¬ value ≤ 0 := not_le.mpr hv
  cases hdraw : generateUniqueBits (s.store.coins.map coinTriple) rand with
  | none =>
    rw [generate_none s userId value rand now hv' hdraw] at h
    exact absurd h (by simp)
  | some t =>
    rw [generate_some s userId value rand now t hv' hdraw] at h
    simp only at h
    injection h with h1 h2 h3 h4 h5
    subst h1 h2 h3 h4 h5
    have hr := (findUnusedBits_some _ rand MAX_ATTEMPTS 0 t hdraw).2
    rw [generate_some s userId value rand now t hv' hdraw]
    exact ⟨rfl, rfl, hr, rfl⟩

/-- The empty one-client starting state used by the concrete witnesses. -/
def emptyStateW : ServerState :=
  { store := { clients := [⟨1, "Alice"⟩, ⟨2, "Bob"⟩], coins := [], transactions := [],
               nextCoinId := 1, nextTxId := 1 },
    transactionCache := [], coinCache := [] }

/-- Witness for C2: `generate` on the empty store with the constant-zero
oracle draws `(1,1,1)` and produces exactly the stated coin and
transaction rows. -/
theorem generate_success_postcondition_witness :
    0 < (5 : Rat) ∧
    (generate emptyStateW 1 5 (fun _ => 0) 7).1 = .generated 1 1 1 1 5 ∧
    ((5 : Rat) = 5 ∧ 1 = emptyStateW.store.nextCoinId ∧ tripleInRange (1, 1, 1) ∧
     (generate emptyStateW 1 5 (fun _ => 0) 7).2 =
       { store :=
           { emptyStateW.store with
             coins := emptyStateW.store.coins ++
               [{ coin_id := 1, bit1 := 1, bit2 := 1, bit3 := 1,
                  value := 5, client_id := some 1 }],
             transactions := emptyStateW.store.transactions ++
               [{ id := emptyStateW.store.nextTxId, coin_id := 1, buyer_id := 1,
                  seller_id := none, amount := 5, transaction_date := 7 }],
             nextCoinId := 2,
             nextTxId := emptyStateW.store.nextTxId + 1 },
         transactionCache := [],
         coinCache := [] }) :=
  ⟨by norm_num, by decide,
   generate_success_postcondition emptyStateW 1 5 (fun _ => 0) 7 1 1 1 1 5
     (by norm_num) (by decide)⟩

/-! ## C3 — postcondition of a successful buy -/

/-- Ownership updates only touch the `client_id` column. -/
lemma updateOwner_fields (coinId buyerId : Nat) (c : Coin) :
    (updateOwner coinId buyerId c).coin_id = c.coin_id ∧
    (updateOwner coinId buyerId c).bit1 = c.bit1 ∧
    (updateOwner coinId buyerId c).bit2 = c.bit2 ∧
    (updateOwner coinId buyerId c).bit3 = c.bit3 ∧
    (updateOwner coinId buyerId c).value = c.value := by
  unfold updateOwner
  split <;> exact ⟨rfl, rfl, rfl, rfl, rfl⟩

/-! ## Equation lemmas for the buy handler -/

/-- A falsy `coin_id` is rejected before any state change. -/
lemma buy_missing (s : ServerState) (buyerId coinId now : Nat) (hc0 : coinId = 0) :
    buy s buyerId coinId now = (.missingCoinId, s) := by
  unfold buy
  rw [if_pos hc0]

/-- An absent coin makes buy roll back and report not-found. -/
lemma buy_notFound (s : ServerState) (buyerId coinId now : Nat) (hcid : coinId ≠ 0)
    (hfind : s.store.coins.find? (fun c => c.coin_id == coinId) = none) :
    buy s buyerId coinId now = (.notFound, s) := by
  unfold buy
  rw [if_neg hcid, hfind]

/-- An owned coin makes buy roll back and report the ownership clash. -/
lemma buy_alreadyOwned (s : ServerState) (buyerId coinId now : Nat) (coin : Coin)
    (owner : Nat) (hcid : coinId ≠ 0)
    (hfind : s.store.coins.find? (fun c => c.coin_id == coinId) = some coin)
    (howner : coin.client_id = some owner) :
    buy s buyerId coinId now = (.alreadyOwned, s) := by
  obtain ⟨cid0, x1, x2, x3, vv, ow⟩ := coin
  subst howner
  unfold buy
  rw [if_neg hcid, hfind]
  rfl

/-- An unowned coin makes buy update the owner, append the purchase
transaction and clear both caches. -/
lemma buy_eq_purchase (s : ServerState) (buyerId coinId now : Nat) (coin : Coin)
    (hcid : coinId ≠ 0)
    (hfind : s.store.coins.find? (fun c => c.coin_id == coinId) = some coin)
    (hunowned : coin.client_id = none) :
    buy s buyerId coinId now =
      (.purchased coinId,
       { store :=
           { s.store with
             coins := s.store.coins.map (updateOwner coinId buyerId),
             transactions := s.store.transactions ++
               [{ id := s.store.nextTxId, coin_id := coinId, buyer_id := buyerId,
                  seller_id := none, amount := coin.value, transaction_date := now }],
             nextTxId := s.store.nextTxId + 1 },
         transactionCache := [],
         coinCache := [] }) := by
  obtain ⟨cid0, x1, x2, x3, vv, ow⟩ := coin
  subst hunowned
  unfold buy
  rw [if_neg hcid, hfind]
  rfl

/-- C3.  A successful `buy` on an unowned coin sets that coin's owner to
the requester, appends exactly one transaction with `buyer = requester`,
`seller_id = NULL`, `amount = coin.value` and the current timestamp, and
changes nothing else: rows with a different `coin_id` are untouched and
the ownership update never alters any column but `client_id`. -/
theorem buy_success_postcondition
    (s : ServerState) (buyerId coinId now : Nat) (coin : Coin)
    (hcid : coinId ≠ 0)
    (hfind : s.store.coins.find? (fun c => c.coin_id == coinId) = some coin)
    (hunowned : coin.client_id = none) :
    buy s buyerId coinId now =
      (.purchased coinId,
       { store :=
           { s.store with
             coins := s.store.coins.map (updateOwner coinId buyerId),
             transactions := s.store.transactions ++
               [{ id := s.store.nextTxId, coin_id := coinId, buyer_id := buyerId,
                  seller_id := none, amount := coin.value, transaction_date := now }],
             nextTxId := s.store.nextTxId + 1 },
         transactionCache := [],
         coinCache := [] }) ∧
    (∀ c, (updateOwner coinId buyerId c).coin_id = c.coin_id ∧
          (updateOwner coinId buyerId c).bit1 = c.bit1 ∧
          (updateOwner coinId buyerId c).bit2 = c.bit2 ∧
          (updateOwner coinId buyerId c).bit3 = c.bit3 ∧
          (updateOwner coinId buyerId c).value = c.value) ∧
    (∀ c, c.coin_id ≠ coinId → updateOwner coinId buyerId c = c) ∧
    (∀ c, c.coin_id = coinId →
       (updateOwner coinId buyerId c).client_id = some buyerId) := by
  refine ⟨buy_eq_purchase s buyerId coinId now coin hcid hfind hunowned,
    updateOwner_fields coinId buyerId, ?_, ?_⟩
  · intro c hc
    unfold updateOwner
    rw [if_neg hc]
  · intro c hc
    unfold updateOwner
    rw [if_pos hc]

/-- A one-unowned-coin state used by the buy witnesses. -/
def unownedStateW : ServerState :=
  { store := { clients := [⟨1, "Alice"⟩, ⟨2, "Bob"⟩],
               coins := [⟨1, 1, 1, 1, 5, none⟩],
               transactions := [⟨1, 1, 1, none, 5, 7⟩],
               nextCoinId := 2, nextTxId := 2 },
    transactionCache := [], coinCache := [] }

/-- Witness for C3: buying the unowned coin `1` as user `2`. -/
theorem buy_success_postcondition_witness :
    (1 : Nat) ≠ 0 ∧
    unownedStateW.store.coins.find? (fun c => c.coin_id == 1)
      = some ⟨1, 1, 1, 1, 5, none⟩ ∧
    buy unownedStateW 2 1 20 =
      (.purchased 1,
       { store :=
           { unownedStateW.store with
             coins := unownedStateW.store.coins.map (updateOwner 1 2),
             transactions := unownedStateW.store.transactions ++
               [{ id := unownedStateW.store.nextTxId, coin_id := 1, buyer_id := 2,
                  seller_id := none, amount := 5, transaction_date := 20 }],
             nextTxId := unownedStateW.store.nextTxId + 1 },
         transactionCache := [],
         coinCache := [] }) :=
  ⟨by decide, by decide,
   (buy_success_postcondition unownedStateW 2 1 20 ⟨1, 1, 1, 1, 5, none⟩
     (by decide) (by decide) rfl).1⟩

/-! ## C4 — failure cases of buy leave the store unchanged -/

/-- `find?` by coin id commutes with the ownership update map, which
preserves every `coin_id`. -/
lemma find?_map_updateOwner (l : List Coin) (coinId buyerId : Nat) :
    (l.map (updateOwner coinId buyerId)).find? (fun c => c.coin_id == coinId)
      = (l.find? (fun c => c.coin_id == coinId)).map (updateOwner coinId buyerId) := by
  induction l with
  | nil => rfl
  | cons hd tl ih =>
    have hid : (updateOwner coinId buyerId hd).coin_id = hd.coin_id :=
      (updateOwner_fields coinId buyerId hd).1
    simp only [List.map_cons, List.find?]
    rw [hid]
    cases h : (hd.coin_id == coinId) with
    | true => rfl
    | false => simpa using ih

/-- C4.  `buy` fails with `NotFoundError` when no coin with the requested
id exists and with `AlreadyOwnedError` when the coin's owner is
non-null, and both failures leave the whole server state unchanged; in
particular a second `buy` of a coin just bought fails with
`AlreadyOwnedError` and changes nothing. -/
theorem buy_failure_cases
    (s : ServerState) (buyerId coinId now : Nat) (hcid : coinId ≠ 0) :
    (s.store.coins.find? (fun c => c.coin_id == coinId) = none →
       buy s buyerId coinId now = (.notFound, s)) ∧
    (∀ coin owner,
       s.store.coins.find? (fun c => c.coin_id == coinId) = some coin →
       coin.client_id = some owner →
       buy s buyerId coinId now = (.alreadyOwned, s)) ∧
    (∀ coin,
       s.store.coins.find? (fun c => c.coin_id == coinId) = some coin →
       coin.client_id = none →
       ∀ buyerId2 now2,
         buy (buy s buyerId coinId now).2 buyerId2 coinId now2 =
           (.alreadyOwned, (buy s buyerId coinId now).2)) := by
  refine ⟨?_, ?_, ?_⟩
  · intro hfind
    exact buy_notFound s buyerId coinId now hcid hfind
  · intro coin owner hfind howner
    exact buy_alreadyOwned s buyerId coinId now coin owner hcid hfind howner
  · intro coin hfind hunowned buyerId2 now2
    have hmatch : coin.coin_id = coinId := by
      have hb := List.find?_some hfind
      simp only [beq_iff_eq] at hb
      exact hb
    have hupd : updateOwner coinId buyerId coin
        = { coin with client_id := some buyerId } := by
      unfold updateOwner
      rw [if_pos hmatch]
    have hstep := buy_eq_purchase s buyerId coinId now coin hcid hfind hunowned
    have hcomp : ((fun c => c.coin_id == coinId) ∘ updateOwner coinId buyerId)
        = (fun c => c.coin_id == coinId) := by
      funext c
      simp only [Function.comp_apply]
      rw [(updateOwner_fields coinId buyerId c).1]
    rw [hstep]
    unfold buy
    rw [if_neg hcid]
    simp [List.find?_map, hcomp, hfind, hupd]

/-- Witness for C4: on the one-coin state, buying coin `2` is not found,
buying an owned variant fails, and a second buy of coin `1` after a
successful one fails with `AlreadyOwnedError` and changes nothing. -/
theorem buy_failure_cases_witness :
    (1 : Nat) ≠ 0 ∧ (2 : Nat) ≠ 0 ∧
    buy unownedStateW 2 2 20 = (.notFound, unownedStateW) ∧
    buy (buy unownedStateW 2 1 20).2 1 1 30 =
      (.alreadyOwned, (buy unownedStateW 2 1 20).2) :=
  ⟨by decide, by decide,
   (buy_failure_cases unownedStateW 2 2 20 (by decide)).1 (by decide),
   (buy_failure_cases unownedStateW 2 1 20 (by decide)).2.2
     ⟨1, 1, 1, 1, 5, none⟩ (by decide) rfl 1 30⟩

/-! ## C5 — full occupancy makes generate fail with exhaustion -/

/-- C5.  When every triple of the 10 × 10 × 10 combination space is
already assigned to an existing coin (full occupancy, 1000 coins), the
bounded 10000-attempt draw loop cannot find an unused triple, so
`generate` fails with the exhaustion error and the rollback leaves the
state exactly as it was: neither a coin row nor a transaction row is
created. -/
theorem generate_exhaustion
    (s : ServerState) (userId : Nat) (value : Rat) (rand : Nat → Nat) (now : Nat)
    (hv : 0 < value)
    (hfull : ∀ t, tripleInRange t → t ∈ s.store.coins.map coinTriple) :
    generate s userId value rand now = (.exhausted, s) := by
  unfold generate
  rw [if_neg (not_le.mpr hv)]
  have hnone : generateUniqueBits (s.store.coins.map coinTriple) rand = none :=
    findUnusedBits_none _ rand hfull MAX_ATTEMPTS 0
  rw [hnone]

/-- All 1000 triples of the combination space, listed. -/
def allBitTriples : List Triple :=
  (List.range 10).flatMap fun a =>
    (List.range 10).flatMap fun b =>
      (List.range 10).map fun c => (a + 1, b + 1, c + 1)

/-- Every in-range triple occurs in the listing of the space. -/
lemma mem_allBitTriples {t : Triple} (h : tripleInRange t) : t ∈ allBitTriples := by
  obtain ⟨a, b, c⟩ := t
  dsimp only [tripleInRange] at h
  obtain ⟨h1, h2, h3, h4, h5, h6⟩ := h
  unfold allBitTriples
  simp only [List.mem_flatMap, List.mem_map, List.mem_range]
  refine ⟨a - 1, by omega, b - 1, by omega, c - 1, by omega, ?_⟩
  simp only [Prod.mk.injEq]
  omega

/-- A store holding one coin per triple of the combination space. -/
def fullCoins : List Coin :=
  allBitTriples.map fun t =>
    { coin_id := 1, bit1 := t.1, bit2 := t.2.1, bit3 := t.2.2,
      value := 1, client_id := some 1 }

/-- The triples of `fullCoins` are exactly the listing of the space. -/
lemma fullCoins_triples : fullCoins.map coinTriple = allBitTriples := by
  unfold fullCoins
  rw [List.map_map]
  exact List.map_id allBitTriples

/-- The fully occupied server state used by the exhaustion witness. -/
def fullStateW : ServerState :=
  { store := { clients := [⟨1, "Alice"⟩], coins := fullCoins, transactions := [],
               nextCoinId := 1001, nextTxId := 1 },
    transactionCache := [], coinCache := [] }

/-- Witness for C5: on the fully occupied store, `generate` reports
exhaustion and returns the state unchanged. -/
theorem generate_exhaustion_witness :
    0 < (1 : Rat) ∧
    (∀ t, tripleInRange t → t ∈ fullStateW.store.coins.map coinTriple) ∧
    generate fullStateW 1 1 (fun _ => 0) 5 = (.exhausted, fullStateW) := by
  have hfull : ∀ t, tripleInRange t → t ∈ fullStateW.store.coins.map coinTriple := by
    intro t ht
    show t ∈ fullCoins.map coinTriple
    rw [fullCoins_triples]
    exact mem_allBitTriples ht
  exact ⟨by norm_num, hfull,
    generate_exhaustion fullStateW 1 1 (fun _ => 0) 5 (by norm_num) hfull⟩

/-! ## Helper lemmas about the history projection -/

/-- Membership in an insertion is membership in the inserted element or
the list. -/
lemma mem_of_insertByDate {r a : HistoryRow} :
    ∀ {l : List HistoryRow}, a ∈ insertByDate r l → a = r ∨ a ∈ l := by
  intro l
  induction l with
  | nil =>
    intro h
    simp only [insertByDate, List.mem_singleton] at h
    exact Or.inl h
  | cons x xs ih =>
    intro h
    unfold insertByDate at h
    by_cases hle : x.transaction_date ≤ r.transaction_date
    · rw [if_pos hle] at h
      rcases List.mem_cons.mp h with h | h
      · exact Or.inr (h ▸ List.mem_cons_self x xs)
      · rcases ih h with h | h
        · exact Or.inl h
        · exact Or.inr (List.mem_cons_of_mem x h)
    · rw [if_neg hle] at h
      rcases List.mem_cons.mp h with h | h
      · exact Or.inl h
      · exact Or.inr h

/-- Sorting by date produces no new rows. -/
lemma mem_of_sortByDate {a : HistoryRow} :
    ∀ {l : List HistoryRow}, a ∈ sortByDate l → a ∈ l := by
  intro l
  induction l with
  | nil => intro h; simp [sortByDate] at h
  | cons x xs ih =>
    intro h
    unfold sortByDate at h
    rcases mem_of_insertByDate h with h | h
    · exact h ▸ List.mem_cons_self x xs
    · exact List.mem_cons_of_mem x (ih h)

/-- In a history row both seller columns come from the same left-joined
client row, so a null `seller_id` forces a null `seller_name`. -/
lemma historyRows_seller {s : ServerState} {coinId : Nat} {r : HistoryRow}
    (h : r ∈ historyRows s coinId) (hsid : r.seller_id = none) :
    r.seller_name = none := by
  unfold historyRows at h
  rw [List.mem_filterMap] at h
  obtain ⟨t, ht, hf⟩ := h
  cases hb : s.store.clients.find? (fun cl => cl.id == t.buyer_id) with
  | none => rw [hb] at hf; exact absurd hf (by simp)
  | some buyer =>
    rw [hb] at hf
    injection hf with hf
    subst hf
    have hsid' : (t.seller_id.bind fun sid =>
        s.store.clients.find? (fun cl => cl.id == sid)).map (fun cl => cl.id)
          = none := hsid
    show (t.seller_id.bind fun sid =>
        s.store.clients.find? (fun cl => cl.id == sid)).map (fun cl => cl.name) = none
    cases hsc : t.seller_id.bind fun sid =>
        s.store.clients.find? (fun cl => cl.id == sid) with
    | none => rfl
    | some cl =>
      rw [hsc] at hsid'
      exact absurd hsid' (by simp)

/-! ## C6 — projection of a freshly generated, never-transferred coin -/

/-- C6.  For a coin whose transaction log holds exactly its mint
transaction and whose stored owner is the minting requester (who exists
as a client, as the projection's inner join requires), `project`
returns exactly two events, a `Generated` one followed by a `Current`
one, and both attribute ownership to the minting requester. -/
theorem projectHistory_fresh_coin
    (s : ServerState) (coinId : Nat) (coin : Coin) (t0 : Transaction) (buyer : Client)
    (hfind : s.store.coins.find? (fun c => c.coin_id == coinId) = some coin)
    (htxs : s.store.transactions.filter (fun t => t.coin_id == coinId) = [t0])
    (hbuyer : s.store.clients.find? (fun cl => cl.id == t0.buyer_id) = some buyer)
    (howner : coin.client_id = some t0.buyer_id) :
    ∃ gen cur, projectHistory s coinId = some [gen, cur] ∧
      gen.type = .generated ∧ cur.type = .current ∧
      gen.owner_id = some t0.buyer_id ∧ cur.owner_id = some t0.buyer_id := by
  have hbid : buyer.id = t0.buyer_id := by
    have hb := List.find?_some hbuyer
    simp only [beq_iff_eq] at hb
    exact hb
  obtain ⟨row0, hrows, hrbid⟩ :
      ∃ row0, historyRows s coinId = [row0] ∧ row0.buyer_id = buyer.id := by
    refine ⟨{ transaction_date := t0.transaction_date, amount := t0.amount,
              seller_id := (t0.seller_id.bind fun sid =>
                s.store.clients.find? (fun cl => cl.id == sid)).map (fun cl => cl.id),
              seller_name := (t0.seller_id.bind fun sid =>
                s.store.clients.find? (fun cl => cl.id == sid)).map (fun cl => cl.name),
              buyer_id := buyer.id, buyer_name := buyer.name }, ?_, rfl⟩
    unfold historyRows
    rw [htxs]
    simp only [List.filterMap_cons, List.filterMap_nil, hbuyer]
  refine ⟨generatedEvent row0, currentEvent s coin [row0] [generatedEvent row0],
    ?_, rfl, rfl, ?_, ?_⟩
  · unfold projectHistory
    rw [hfind, hrows]
    rfl
  · show some row0.buyer_id = some t0.buyer_id
    rw [hrbid, hbid]
  · show coin.client_id = some t0.buyer_id
    exact howner

/-- The one-coin one-mint state used by the projection witness. -/
def freshStateW : ServerState :=
  { store := { clients := [⟨1, "Alice"⟩],
               coins := [⟨1, 2, 3, 4, 500, some 1⟩],
               transactions := [⟨1, 1, 1, none, 500, 100⟩],
               nextCoinId := 2, nextTxId := 2 },
    transactionCache := [], coinCache := [] }

/-- Witness for C6: the freshly-minted coin's timeline is exactly
`Generated` then `Current`, both owned by user `1`. -/
theorem projectHistory_fresh_coin_witness :
    freshStateW.store.coins.find? (fun c => c.coin_id == 1)
      = some ⟨1, 2, 3, 4, 500, some 1⟩ ∧
    freshStateW.store.transactions.filter (fun t => t.coin_id == 1)
      = [⟨1, 1, 1, none, 500, 100⟩] ∧
    freshStateW.store.clients.find? (fun cl => cl.id == 1) = some ⟨1, "Alice"⟩ ∧
    (∃ gen cur, projectHistory freshStateW 1 = some [gen, cur] ∧
      gen.type = .generated ∧ cur.type = .current ∧
      gen.owner_id = some 1 ∧ cur.owner_id = some 1) :=
  ⟨by decide, by decide, by decide,
   projectHistory_fresh_coin freshStateW 1 ⟨1, 2, 3, 4, 500, some 1⟩
     ⟨1, 1, 1, none, 500, 100⟩ ⟨1, "Alice"⟩ (by decide) (by decide) (by decide) rfl⟩

/-! ## C7 — every event after the first is a transfer from the seller -/

/-- C7.  In the timeline of `project`, the first sorted transaction
becomes the `Generated` event and every later transaction is emitted as
a `Transfer` event whose owner is that transaction's buyer and whose
previous owner is that transaction's (left-joined) seller; the modal
display falls back to "Original Issuer" exactly when the stored
`previous_owner_name` is falsy, which is forced whenever the row's
`seller_id` is null. -/
theorem projectHistory_transfer_events
    (s : ServerState) (coinId : Nat) (coin : Coin)
    (r0 : HistoryRow) (rest : List HistoryRow)
    (hfind : s.store.coins.find? (fun c => c.coin_id == coinId) = some coin)
    (hrows : sortByDate (historyRows s coinId) = r0 :: rest) :
    projectHistory s coinId =
      some (generatedEvent r0 :: rest.map transferEvent ++
        [currentEvent s coin (r0 :: rest)
          (generatedEvent r0 :: rest.map transferEvent)]) ∧
    (∀ r, (transferEvent r).type = .transfer ∧
          (transferEvent r).owner_id = some r.buyer_id ∧
          (transferEvent r).previous_owner_id = r.seller_id ∧
          (transferEvent r).previous_owner_name = r.seller_name ∧
          (r.seller_name = none →
             displayPreviousOwner (transferEvent r) = "Original Issuer")) ∧
    (∀ r ∈ rest, r.seller_id = none → r.seller_name = none) := by
  refine ⟨?_, ?_, ?_⟩
  · unfold projectHistory
    rw [hfind, hrows]
    rfl
  · intro r
    refine ⟨rfl, rfl, rfl, rfl, ?_⟩
    intro hn
    have hn' : (transferEvent r).previous_owner_name = none := hn
    unfold displayPreviousOwner
    rw [hn']
  · intro r hr hsid
    have hmem : r ∈ historyRows s coinId :=
      mem_of_sortByDate (hrows ▸ List.mem_cons_of_mem r0 hr)
    exact historyRows_seller hmem hsid

/-- A coin minted by Alice and then bought by Bob, for the transfer
witness. -/
def resoldStateW : ServerState :=
  { store := { clients := [⟨1, "Alice"⟩, ⟨2, "Bob"⟩],
               coins := [⟨1, 2, 3, 4, 500, some 2⟩],
               transactions := [⟨1, 1, 1, none, 500, 100⟩, ⟨2, 1, 2, none, 500, 200⟩],
               nextCoinId := 2, nextTxId := 3 },
    transactionCache := [], coinCache := [] }

/-- Witness for C7: on the resold coin the second event is the transfer
to Bob, whose null seller displays as "Original Issuer". -/
theorem projectHistory_transfer_events_witness :
    resoldStateW.store.coins.find? (fun c => c.coin_id == 1)
      = some ⟨1, 2, 3, 4, 500, some 2⟩ ∧
    sortByDate (historyRows resoldStateW 1)
      = [⟨100, 500, none, none, 1, "Alice"⟩, ⟨200, 500, none, none, 2, "Bob"⟩] ∧
    projectHistory resoldStateW 1 =
      some (generatedEvent ⟨100, 500, none, none, 1, "Alice"⟩ ::
        [(⟨200, 500, none, none, 2, "Bob"⟩ : HistoryRow)].map transferEvent ++
        [currentEvent resoldStateW ⟨1, 2, 3, 4, 500, some 2⟩
          (⟨100, 500, none, none, 1, "Alice"⟩ ::
            [(⟨200, 500, none, none, 2, "Bob"⟩ : HistoryRow)])
          (generatedEvent ⟨100, 500, none, none, 1, "Alice"⟩ ::
            [(⟨200, 500, none, none, 2, "Bob"⟩ : HistoryRow)].map transferEvent)]) ∧
    displayPreviousOwner (transferEvent ⟨200, 500, none, none, 2, "Bob"⟩)
      = "Original Issuer" :=
  ⟨by decide, by decide,
   (projectHistory_transfer_events resoldStateW 1 ⟨1, 2, 3, 4, 500, some 2⟩
     ⟨100, 500, none, none, 1, "Alice"⟩ [⟨200, 500, none, none, 2, "Bob"⟩]
     (by decide) (by decide)).1,
   ((projectHistory_transfer_events resoldStateW 1 ⟨1, 2, 3, 4, 500, some 2⟩
     ⟨100, 500, none, none, 1, "Alice"⟩ [⟨200, 500, none, none, 2, "Bob"⟩]
     (by decide) (by decide)).2.1 ⟨200, 500, none, none, 2, "Bob"⟩).2.2.2.2 rfl⟩

/-! ## C8 — both caches are fully cleared after a successful mutation -/

/-- C8.  Whenever `generate` or `buy` succeeds, the returned server state
holds an empty transaction cache and an empty coin cache: every cached
paginated page is removed, with no partial invalidation, before the
handler returns. -/
theorem caches_cleared_after_mutation
    (s : ServerState) (userId : Nat) (value : Rat) (rand : Nat → Nat) (now : Nat)
    (buyerId coinId now2 : Nat) :
    (∀ cid b1 b2 b3 v,
       (generate s userId value rand now).1 = .generated cid b1 b2 b3 v →
       (generate s userId value rand now).2.transactionCache = [] ∧
       (generate s userId value rand now).2.coinCache = []) ∧
    (∀ cid, (buy s buyerId coinId now2).1 = .purchased cid →
       (buy s buyerId coinId now2).2.transactionCache = [] ∧
       (buy s buyerId coinId now2).2.coinCache = []) := by
  constructor
  · intro cid b1 b2 b3 v h
    by_cases hv : value ≤ 0
    · rw [generate_invalid s userId value rand now hv] at h
      exact absurd h (by simp)
    · cases hdraw : generateUniqueBits (s.store.coins.map coinTriple) rand with
      | none =>
        rw [generate_none s userId value rand now hv hdraw] at h
        exact absurd h (by simp)
      | some t =>
        rw [generate_some s userId value rand now t hv hdraw]
        exact ⟨rfl, rfl⟩
  · intro cid h
    by_cases hc0 : coinId = 0
    · rw [buy_missing s buyerId coinId now2 hc0] at h
      exact absurd h (by simp)
    · cases hfind : s.store.coins.find? (fun c => c.coin_id == coinId) with
      | none =>
        rw [buy_notFound s buyerId coinId now2 hc0 hfind] at h
        exact absurd h (by simp)
      | some coin =>
        cases how : coin.client_id with
        | some owner =>
          rw [buy_alreadyOwned s buyerId coinId now2 coin owner hc0 hfind how] at h
          exact absurd h (by simp)
        | none =>
          rw [buy_eq_purchase s buyerId coinId now2 coin hc0 hfind how]
          exact ⟨rfl, rfl⟩

/-- Witness for C8: the concrete successful generate and buy runs leave
both caches empty. -/
theorem caches_cleared_after_mutation_witness :
    (generate emptyStateW 1 5 (fun _ => 0) 7).1 = .generated 1 1 1 1 5 ∧
    ((generate emptyStateW 1 5 (fun _ => 0) 7).2.transactionCache = [] ∧
     (generate emptyStateW 1 5 (fun _ => 0) 7).2.coinCache = []) ∧
    (buy unownedStateW 2 1 20).1 = .purchased 1 ∧
    ((buy unownedStateW 2 1 20).2.transactionCache = [] ∧
     (buy unownedStateW 2 1 20).2.coinCache = []) :=
  ⟨by decide,
   (caches_cleared_after_mutation emptyStateW 1 5 (fun _ => 0) 7 2 1 20).1
     1 1 1 1 5 (by decide),
   by decide,
   (caches_cleared_after_mutation unownedStateW 1 5 (fun _ => 0) 7 2 1 20).2
     1 (by decide)⟩

/-! ## C9 — the outcome of buy does not depend on the requester -/

/-- Erase the owner column of a coin row. -/
def scrubCoin (c : Coin) : Coin := { c with client_id := none }

/-- Erase the buyer column of a transaction row. -/
def scrubTx (t : Transaction) : Transaction := { t with buyer_id := 0 }

/-- Erase every recorded user id (coin owners and transaction buyers)
from a server state, leaving everything else intact. -/
def scrubUserIds (s : ServerState) : ServerState :=
  { s with store :=
      { s.store with
        coins := s.store.coins.map scrubCoin,
        transactions := s.store.transactions.map scrubTx } }

/-- C9.  `buy` classifies its outcome (missing id, not found, already
owned, or purchased) from the targeted coin's stored state alone: two
authenticated requesters always receive the same result value, and the
two resulting states agree after erasing the owner and buyer columns —
they differ only in which user id is recorded as the new owner and as
the buyer of the appended transaction.  In particular there is no funds
check and no restriction on who may buy an unowned coin. -/
theorem buy_requester_independence
    (s : ServerState) (u1 u2 coinId now : Nat) :
    (buy s u1 coinId now).1 = (buy s u2 coinId now).1 ∧
    scrubUserIds (buy s u1 coinId now).2 = scrubUserIds (buy s u2 coinId now).2 := by
  by_cases hc0 : coinId = 0
  · rw [buy_missing s u1 coinId now hc0, buy_missing s u2 coinId now hc0]
    exact ⟨rfl, rfl⟩
  · cases hfind : s.store.coins.find? (fun c => c.coin_id == coinId) with
    | none =>
      rw [buy_notFound s u1 coinId now hc0 hfind,
        buy_notFound s u2 coinId now hc0 hfind]
      exact ⟨rfl, rfl⟩
    | some coin =>
      cases how : coin.client_id with
      | some owner =>
        rw [buy_alreadyOwned s u1 coinId now coin owner hc0 hfind how,
          buy_alreadyOwned s u2 coinId now coin owner hc0 hfind how]
        exact ⟨rfl, rfl⟩
      | none =>
        rw [buy_eq_purchase s u1 coinId now coin hc0 hfind how,
          buy_eq_purchase s u2 coinId now coin hc0 hfind how]
        refine ⟨rfl, ?_⟩
        have hcoins : ∀ u : Nat,
            (s.store.coins.map (updateOwner coinId u)).map scrubCoin
              = s.store.coins.map scrubCoin := by
          intro u
          rw [List.map_map]
          refine List.map_congr_left fun c _ => ?_
          show scrubCoin (updateOwner coinId u c) = scrubCoin c
          unfold updateOwner scrubCoin
          split <;> rfl
        have htxs : ∀ u : Nat,
            ((s.store.transactions ++
              [({ id := s.store.nextTxId, coin_id := coinId, buyer_id := u,
                  seller_id := none, amount := coin.value,
                  transaction_date := now } : Transaction)]).map scrubTx)
              = s.store.transactions.map scrubTx ++
                [({ id := s.store.nextTxId, coin_id := coinId, buyer_id := 0,
                    seller_id := none, amount := coin.value,
                    transaction_date := now } : Transaction)] := by
          intro u
          rw [List.map_append]
          rfl
        unfold scrubUserIds
        simp only
        rw [hcoins u1, hcoins u2, htxs u1, htxs u2]

/-! ## C10 — failed mutations leave both caches untouched -/

/-- C10.  On every failure path of `generate` (invalid value,
exhaustion) and of `buy` (missing id, coin not found, coin already
owned) the returned state carries exactly the input caches: cache
invalidation happens only after a successful commit, so previously
cached pages keep being served until their time-to-live expires. -/
theorem caches_unchanged_on_failure
    (s : ServerState) (userId : Nat) (value : Rat) (rand : Nat → Nat) (now : Nat)
    (buyerId coinId now2 : Nat) :
    (((generate s userId value rand now).1 = .invalidValue ∨
      (generate s userId value rand now).1 = .exhausted) →
       (generate s userId value rand now).2.transactionCache = s.transactionCache ∧
       (generate s userId value rand now).2.coinCache = s.coinCache) ∧
    (((buy s buyerId coinId now2).1 = .missingCoinId ∨
      (buy s buyerId coinId now2).1 = .notFound ∨
      (buy s buyerId coinId now2).1 = .alreadyOwned) →
       (buy s buyerId coinId now2).2.transactionCache = s.transactionCache ∧
       (buy s buyerId coinId now2).2.coinCache = s.coinCache) := by
  constructor
  · intro h
    by_cases hv : value ≤ 0
    · rw [generate_invalid s userId value rand now hv]
      exact ⟨rfl, rfl⟩
    · cases hdraw : generateUniqueBits (s.store.coins.map coinTriple) rand with
      | none =>
        rw [generate_none s userId value rand now hv hdraw]
        exact ⟨rfl, rfl⟩
      | some t =>
        rw [generate_some s userId value rand now t hv hdraw] at h
        simp at h
  · intro h
    by_cases hc0 : coinId = 0
    · rw [buy_missing s buyerId coinId now2 hc0]
      exact ⟨rfl, rfl⟩
    · cases hfind : s.store.coins.find? (fun c => c.coin_id == coinId) with
      | none =>
        rw [buy_notFound s buyerId coinId now2 hc0 hfind]
        exact ⟨rfl, rfl⟩
      | some coin =>
        cases how : coin.client_id with
        | some owner =>
          rw [buy_alreadyOwned s buyerId coinId now2 coin owner hc0 hfind how]
          exact ⟨rfl, rfl⟩
        | none =>
          rw [buy_eq_purchase s buyerId coinId now2 coin hc0 hfind how] at h
          simp at h

/-- Witness for C10: a rejected zero-value generate and a not-found buy
both leave the caches of the input state untouched. -/
theorem caches_unchanged_on_failure_witness :
    ((generate emptyStateW 1 0 (fun _ => 0) 7).1 = .invalidValue ∨
     (generate emptyStateW 1 0 (fun _ => 0) 7).1 = .exhausted) ∧
    ((generate emptyStateW 1 0 (fun _ => 0) 7).2.transactionCache
        = emptyStateW.transactionCache ∧
     (generate emptyStateW 1 0 (fun _ => 0) 7).2.coinCache
        = emptyStateW.coinCache) ∧
    ((buy emptyStateW 2 5 20).1 = .missingCoinId ∨
     (buy emptyStateW 2 5 20).1 = .notFound ∨
     (buy emptyStateW 2 5 20).1 = .alreadyOwned) ∧
    ((buy emptyStateW 2 5 20).2.transactionCache = emptyStateW.transactionCache ∧
     (buy emptyStateW 2 5 20).2.coinCache = emptyStateW.coinCache) :=
  ⟨Or.inl (by decide),
   (caches_unchanged_on_failure emptyStateW 1 0 (fun _ => 0) 7 2 5 20).1
     (Or.inl (by decide)),
   Or.inr (Or.inl (by decide)),
   (caches_unchanged_on_failure emptyStateW 1 0 (fun _ => 0) 7 2 5 20).2
     (Or.inr (Or.inl (by decide)))⟩

end BitSlow
